import Mathlib

/-!
Verification of the gclients HTTP API client bindings (Prometheus,
Alertmanager, Grafana).  The definitions below are shallow embeddings of
the Go source: `src/prometheus/client.go` (generic HTTP client:
URL templating, authentication, the body-drain/cancellation race),
`src/prometheus/v1/api.go` (Prometheus v1 wrapper: error-envelope
interpretation, query-result decoding) and the Alertmanager wrapper
(`src/unnamed/part_000`).  External library behaviour (net/http
transport, encoding/json, grequests) enters the model only as explicit
parameters: a transport outcome, an abstract unmarshal function, etc.
-/

namespace Gclients

/-- Raw bytes (Go `[]byte` / `json.RawMessage`), abstracted as a list of naturals. -/
abbrev Bytes := List Nat

/-- Errors produced below the API-wrapper layer: the context package's two
cancellation errors (`context.Canceled`, `context.DeadlineExceeded`) and
arbitrary other errors (transport failures, read errors, ...), identified
by their message. -/
inductive GoErr where
  | ctxCanceled
  | ctxDeadlineExceeded
  | other (msg : String)
deriving DecidableEq

/-- Whether an error is one of the context package's cancellation errors. -/
def GoErr.isCancellation : GoErr → Bool
  | .ctxCanceled => true
  | .ctxDeadlineExceeded => true
  | .other _ => false

/-! ## Generic HTTP client: authentication (src/prometheus/client.go) -/

/-- The slice of `http.Request` state that `httpClient.Do` mutates:
the basic-auth fields set by `req.SetBasicAuth` and the header list
extended by `req.Header.Add`. -/
structure Request where
  basicAuth : Option (String × String)
  headers : List (String × String)
deriving DecidableEq

/-- `req.SetBasicAuth(username, password)`. -/
def Request.setBasicAuth (req : Request) (username password : String) : Request :=
  { req with basicAuth := some (username, password) }

/-- `req.Header.Add(key, value)`. -/
def Request.headerAdd (req : Request) (key value : String) : Request :=
  { req with headers := req.headers ++ [(key, value)] }

/-- Lines 283-287 of `httpClient.Do` (client.go): attach authentication.
`if c.username != "" { req.SetBasicAuth(c.username, c.password) }
else if c.bearerToken != "" { req.Header.Add("Authorization", "Bearer "+c.bearerToken) }`. -/
def doAttachAuth (username password bearerToken : String) (req : Request) : Request :=
  if username ≠ "" then req.setBasicAuth username password
  else if bearerToken ≠ "" then req.headerAdd "Authorization" ("Bearer " ++ bearerToken)
  else req

/-- The slice of `grequests.RequestOptions` state built by `httpClient.Proxy`
(client.go lines 323-333). -/
structure RequestOptions where
  data : List (String × String)
  params : List (String × String)
  requestTimeoutSeconds : Nat
  insecureSkipVerify : Bool
  auth : List String
  headers : List (String × String)
deriving DecidableEq

/-- `httpClient.Proxy` (client.go lines 319-333): construction of the
request options, including its authentication choice.
`if c.username != "" && c.password != "" { requestOptions.Auth = []string{c.username, c.password} }
else if c.bearerToken != "" { requestOptions.Headers = map[...]{"Authorization": "Bearer ..."} }`. -/
def proxyRequestOptions (username password bearerToken : String) (timeout : Nat)
    (params data : List (String × String)) : RequestOptions :=
  let requestOptions : RequestOptions :=
    { data := data, params := params, requestTimeoutSeconds := timeout,
      insecureSkipVerify := true, auth := [], headers := [] }
  if username ≠ "" ∧ password ≠ "" then { requestOptions with auth := [username, password] }
  else if bearerToken ≠ "" then
    { requestOptions with headers := [("Authorization", "Bearer " ++ bearerToken)] }
  else requestOptions

/-! ## Generic HTTP client: response reading under cancellation

`httpClient.Do` (client.go lines 288-317), after the transport call:
a goroutine drains the body (`body, err = io.ReadAll(resp.Body)`), while
the main flow selects between `ctx.Done()` and the drain's completion
channel.  On cancellation the main flow runs `err = resp.Body.Close()`,
waits `<-done`, and replaces a nil error by `ctx.Err()`.  A deferred
`resp.Body.Close()` runs on every return where a response exists.

The nondeterminism is made explicit: `race` records which `select` branch
fired; `drainWroteLast` records which of the two unsynchronized writes to
the shared `err` variable (the goroutine's ReadAll result vs the main
flow's Close result) lands last and therefore survives until the
`if err == nil` check. -/

/-- Which `select` branch fired first. -/
inductive Race where
  | drainFirst
  | cancelFirst
deriving DecidableEq

/-- Observable outcome of `httpClient.Do`: the returned triple plus the
number of times `resp.Body.Close()` was invoked. -/
structure DoResult where
  resp : Option Nat
  body : Bytes
  err : Option GoErr
  bodyCloses : Nat
deriving DecidableEq

/-- `httpClient.Do` after auth attachment (client.go lines 288-317).
`transport` is the outcome of `c.client.Do(req)` (status code on success);
`drainBody`/`drainErr` the goroutine's `io.ReadAll` results; `closeErr`
the result of the explicit `resp.Body.Close()` on the cancellation path;
`ctxErr` the value of `ctx.Err()` once the context is done. -/
def httpClientDoModel (transport : Except GoErr Nat) (race : Race)
    (drainBody : Bytes) (drainErr : Option GoErr)
    (closeErr : Option GoErr) (drainWroteLast : Bool) (ctxErr : GoErr) : DoResult :=
  match transport with
  | .error e => { resp := none, body := [], err := some e, bodyCloses := 0 }
  | .ok code =>
    match race with
    | .drainFirst =>
      { resp := some code, body := drainBody, err := drainErr, bodyCloses := 1 }
    | .cancelFirst =>
      let errAfterWait : Option GoErr := if drainWroteLast then drainErr else closeErr
      let finalErr : Option GoErr :=
        match errAfterWait with
        | none => some ctxErr
        | some e => some e
      { resp := some code, body := drainBody, err := finalErr, bodyCloses := 2 }

/-! ## Prometheus v1 API wrapper (src/prometheus/v1/api.go) -/

/-- `ErrorType` (api.go line 48). -/
abbrev ErrorType := String

/-- `ErrBadData` constant (api.go line 52). -/
def ErrBadData : ErrorType := "bad_data"

/-- `ErrTimeout` constant (api.go line 53). -/
def ErrTimeout : ErrorType := "timeout"

/-- `ErrCanceled` constant (api.go line 54). -/
def ErrCanceled : ErrorType := "canceled"

/-- `ErrExec` constant (api.go line 55). -/
def ErrExec : ErrorType := "execution"

/-- `ErrBadResponse` constant (api.go line 56). -/
def ErrBadResponse : ErrorType := "bad_response"

/-- `statusAPIError` constant (api.go line 36). -/
def statusAPIError : Nat := 422

/-- `v1.Error` (api.go lines 60-63): field `Type` modeled as `typ`,
field `Msg` as `msg`. -/
structure V1Error where
  typ : ErrorType
  msg : String
deriving DecidableEq

/-- Errors flowing out of the Prometheus `apiClient.Do` wrapper: either a
typed `*v1.Error` or an error propagated from the inner client. -/
inductive PromError where
  | api (e : V1Error)
  | inner (e : GoErr)
deriving DecidableEq

/-- `apiResponse` (api.go lines 308-313): the Go field `Error` is modeled
as `errorMsg`. -/
structure ApiResponse where
  status : String
  data : Bytes
  errorType : ErrorType
  errorMsg : String
deriving DecidableEq

/-- `apiClient.Do` (api.go lines 315-354).  The inner `c.Client.Do` result
is given by `innerResp` (status code when a response exists), `innerBody`
and `innerErr`; `unmarshal` stands for `json.Unmarshal` of the body into
`apiResponse` (an external library function, supplied as a parameter).
The `innerResp = none, innerErr = none` case cannot arise from net/http
(a nil error implies a non-nil response); the model returns the inputs
unchanged there to stay total. -/
def apiClientDo (unmarshal : Bytes → Except String ApiResponse)
    (innerResp : Option Nat) (innerBody : Bytes) (innerErr : Option PromError) :
    Option Nat × Bytes × Option PromError :=
  match innerErr with
  | some e => (innerResp, innerBody, some e)
  | none =>
    match innerResp with
    | none => (none, innerBody, none)
    | some code =>
      if code / 100 ≠ 2 ∧ code ≠ statusAPIError then
        (some code, innerBody,
          some (.api ⟨ErrBadResponse, "bad response code " ++ toString code⟩))
      else
        match unmarshal innerBody with
        | .error m => (some code, innerBody, some (.api ⟨ErrBadResponse, m⟩))
        | .ok result =>
          let err1 : Option PromError :=
            if (code == statusAPIError) != (result.status == "error") then
              some (.api ⟨ErrBadResponse, "inconsistent body for response code"⟩)
            else none
          let err2 : Option PromError :=
            if code == statusAPIError && result.status == "error" then
              some (.api ⟨result.errorType, result.errorMsg⟩)
            else err1
          (some code, result.data, err2)

/-! ## Query result decoding (api.go lines 95-135) -/

/-- `model.ValueType` of github.com/prometheus/common: the closed set of
discriminator values a decoded `resultType` field can take. -/
inductive ValueType where
  | valNone
  | valScalar
  | valVector
  | valMatrix
  | valString
deriving DecidableEq

/-- Errors from `queryResult.UnmarshalJSON`: an error propagated from
`json.Unmarshal` (outer envelope or payload decoding), or the
`fmt.Errorf("unexpected value type %q", v.Type)` of the default case. -/
inductive DecodeError where
  | jsonError (msg : String)
  | unexpectedValueType (t : ValueType)
deriving DecidableEq

/-- The decoded `model.Value` held in `queryResult.v`, with the three
payload shapes abstracted by type parameters. -/
inductive DecodedValue (S V M : Type) where
  | scalar (s : S)
  | vector (v : V)
  | matrix (m : M)

/-- `queryResult.UnmarshalJSON` (api.go lines 104-135).  `outer` is the
result of `json.Unmarshal(b, &v)` into the `{resultType, result}` pair;
`decScalar`/`decVector`/`decMatrix` are the payload decoders
(`json.Unmarshal` into `model.Scalar`/`model.Vector`/`model.Matrix`),
supplied as parameters.  The `switch v.Type` dispatches on the
discriminator; its default case is the decode error. -/
def queryResultUnmarshal {S V M : Type} (outer : Except DecodeError (ValueType × Bytes))
    (decScalar : Bytes → Except DecodeError S)
    (decVector : Bytes → Except DecodeError V)
    (decMatrix : Bytes → Except DecodeError M) :
    Except DecodeError (DecodedValue S V M) :=
  match outer with
  | .error e => .error e
  | .ok (t, raw) =>
    match t with
    | .valScalar => (decScalar raw).map .scalar
    | .valVector => (decVector raw).map .vector
    | .valMatrix => (decMatrix raw).map .matrix
    | t => .error (.unexpectedValueType t)

/-! ## Alertmanager API wrapper (src/unnamed/part_000) -/

/-- Errors flowing out of the Alertmanager `apiClient.Do` wrapper:
the `clientError{code, msg}` it constructs, or an error propagated from
the inner client. -/
inductive AmError where
  | clientError (code : Nat) (msg : String)
  | inner (e : GoErr)
deriving DecidableEq

/-- Alertmanager `apiClient.Do` (part_000 lines 127-141).  After a
successful round trip it checks `resp.StatusCode != http.StatusOK`
(200) and on mismatch builds `&clientError{code: resp.StatusCode}`
(message field left empty).  The Content-Type header set on the request
does not affect the returned triple and is not modeled. -/
def amApiClientDo (innerResp : Option Nat) (innerBody : Bytes) (innerErr : Option AmError) :
    Option Nat × Bytes × Option AmError :=
  match innerErr with
  | some e => (innerResp, innerBody, some e)
  | none =>
    match innerResp with
    | none => (none, innerBody, none)
    | some code =>
      if code ≠ 200 then (some code, innerBody, some (.clientError code ""))
      else (some code, innerBody, none)

/-! ## URL placeholder substitution (client.go lines 265-277)

`httpClient.URL` runs `p = strings.Replace(p, ":"+arg, val, -1)` for every
entry of the `args` map; map iteration order is unspecified, so the loop is
modeled as a fold over an explicitly ordered association list.  Strings are
modeled as lists of characters.  `strReplace` reproduces Go's
`strings.Replace(s, old, new, -1)` for a non-empty pattern: it scans the
source left to right, replaces every non-overlapping occurrence and never
rescans the emitted replacement (the loop only ever calls it with the
non-empty pattern `":" + arg`). -/

/-- Fuel-indexed scanner behind `strReplace`; the fuel only bounds the
recursion depth and is irrelevant as soon as it covers the input length. -/
def replFuel (old new : List Char) : Nat → List Char → List Char
  | 0, s => s
  | _ + 1, [] => []
  | fuel + 1, c :: s =>
    if old ≠ [] ∧ old <+: (c :: s) then
      new ++ replFuel old new fuel (s.drop (old.length - 1))
    else
      c :: replFuel old new fuel s

/-- Go `strings.Replace(s, old, new, -1)` for non-empty `old`. -/
def strReplace (old new s : List Char) : List Char :=
  replFuel old new s.length s

/-- The substitution loop of `httpClient.URL` (client.go lines 268-271),
applied to the joined path `p`, with the map's iteration order made
explicit as a list. -/
def substPlaceholders (p : List Char) (args : List (List Char × List Char)) : List Char :=
  args.foldl (fun acc av => strReplace (':' :: av.1) av.2 acc) p

/-- A segment of an endpoint template: a literal character or a
placeholder occurrence `:name`. -/
inductive Seg where
  | lit (c : Char)
  | ph (name : List Char)
deriving DecidableEq

/-- The characters a segment denotes. -/
def Seg.render : Seg → List Char
  | .lit c => [c]
  | .ph n => ':' :: n

/-- The template text denoted by a segment list. -/
def renderSegs : List Seg → List Char
  | [] => []
  | s :: rest => s.render ++ renderSegs rest

/-- Substitute one placeholder at the segment level: every `:a` becomes
the literal characters of `v`. -/
def segSubst (a v : List Char) : List Seg → List Seg
  | [] => []
  | .lit c :: rest => .lit c :: segSubst a v rest
  | .ph n :: rest => (if n = a then v.map Seg.lit else [.ph n]) ++ segSubst a v rest

/-- All substitutions of an argument list, in order. -/
def segSubstAll (args : List (List Char × List Char)) (segs : List Seg) : List Seg :=
  args.foldl (fun sg av => segSubst av.1 av.2 sg) segs

/-- Substitute every placeholder in one pass according to a lookup
function. -/
def segApply (f : List Char → Option (List Char)) : List Seg → List Seg
  | [] => []
  | .lit c :: rest => .lit c :: segApply f rest
  | .ph n :: rest =>
    (match f n with
      | some v => v.map Seg.lit
      | none => [.ph n]) ++ segApply f rest

/-- First-match lookup in an association list (the value the substitution
fold effectively uses for a given placeholder name). -/
def lookupVal (n : List Char) : List (List Char × List Char) → Option (List Char)
  | [] => none
  | av :: rest => if n = av.1 then some av.2 else lookupVal n rest

/-- Well-behaved placeholder names: non-empty, colon-free, and no distinct
pair in a prefix relation (the counterexamples show substitution is
order-dependent without these). -/
structure NamesOK (names : List (List Char)) : Prop where
  ne : ∀ n ∈ names, n ≠ []
  nocolon : ∀ n ∈ names, ':' ∉ n
  nooverlap : ∀ m ∈ names, ∀ n ∈ names, m ≠ n → ¬ m <+: n

/-- A segment fits a name set: literal characters are not colons (every
colon of the template starts a placeholder) and placeholder names are
drawn from the set. -/
def Seg.ok (names : List (List Char)) : Seg → Prop
  | .lit c => c ≠ ':'
  | .ph n => n ∈ names

instance (names : List (List Char)) : DecidablePred (Seg.ok names) := fun s =>
  match s with
  | .lit c => inferInstanceAs (Decidable (c ≠ ':'))
  | .ph n => inferInstanceAs (Decidable (n ∈ names))

/-- A segment whose placeholder (if any) is supplied by the argument
list. -/
def Seg.coveredBy (args : List (List Char × List Char)) : Seg → Prop
  | .lit _ => True
  | .ph n => n ∈ args.map Prod.fst

instance (args : List (List Char × List Char)) : DecidablePred (Seg.coveredBy args) :=
  fun s =>
  match s with
  | .lit _ => inferInstanceAs (Decidable True)
  | .ph n => inferInstanceAs (Decidable (n ∈ args.map Prod.fst))

/-- A fully substituted segment: a non-colon literal. -/
def Seg.subd : Seg → Prop
  | .lit c => c ≠ ':'
  | .ph _ => False

/-! ## Claims about the Prometheus v1 wrapper -/

/-- Claim C1: after a successful round trip whose body decodes as an
envelope, a disagreement between (HTTP status = 422) and
(envelope status = "error") yields a typed error of kind `bad_response`;
for a 200 status with an "error" envelope the error is exactly the
bad_response "inconsistent body for response code" error, which carries
neither the envelope's errorType nor its error message. -/
theorem apiClientDo_mismatch_bad_response
    (unmarshal : Bytes → Except String ApiResponse) (code : Nat) (body : Bytes)
    (r : ApiResponse) (h1 : unmarshal body = .ok r)
    (h2 : (code == statusAPIError) ≠ (r.status == "error")) :
    (∃ m, (apiClientDo unmarshal (some code) body none).2.2 =
        some (.api ⟨ErrBadResponse, m⟩)) ∧
    (code = 200 →
      (apiClientDo unmarshal (some code) body none).2.2 =
        some (.api ⟨ErrBadResponse, "inconsistent body for response code"⟩)) := by
  have hand : (code == statusAPIError && r.status == "error") = false := by
    cases hb : (code == statusAPIError) <;> cases hs : (r.status == "error") <;> simp_all
  have hne : ((code == statusAPIError) != (r.status == "error")) = true := by
    cases hb : (code == statusAPIError) <;> cases hs : (r.status == "error") <;> simp_all
  by_cases hc : code / 100 ≠ 2 ∧ code ≠ statusAPIError
  · refine ⟨⟨"bad response code " ++ toString code, by simp [apiClientDo, hc]⟩, ?_⟩
    rintro rfl
    exact absurd (by norm_num) hc.1
  · have hres : (apiClientDo unmarshal (some code) body none).2.2 =
        some (.api ⟨ErrBadResponse, "inconsistent body for response code"⟩) := by
      simp [apiClientDo, hc, h1, hand, hne]
    exact ⟨⟨_, hres⟩, fun _ => hres⟩

/-- Witness for C1 at a 200 status with envelope status "error",
errorType "bad_data", error "parse error". -/
theorem apiClientDo_mismatch_bad_response_witness :
    (fun _ => Except.ok (⟨"error", [], "bad_data", "parse error"⟩ : ApiResponse) :
        Bytes → Except String ApiResponse) [] =
      Except.ok (⟨"error", [], "bad_data", "parse error"⟩ : ApiResponse) ∧
    (((200 : Nat) == statusAPIError) ≠
      ((⟨"error", [], "bad_data", "parse error"⟩ : ApiResponse).status == "error")) ∧
    ((∃ m, (apiClientDo (fun _ => .ok ⟨"error", [], "bad_data", "parse error"⟩)
          (some 200) [] none).2.2 = some (.api ⟨ErrBadResponse, m⟩)) ∧
      (200 = 200 →
        (apiClientDo (fun _ => .ok ⟨"error", [], "bad_data", "parse error"⟩)
          (some 200) [] none).2.2 =
          some (.api ⟨ErrBadResponse, "inconsistent body for response code"⟩))) :=
  ⟨rfl, by decide,
    apiClientDo_mismatch_bad_response _ 200 [] _ rfl (by decide)⟩

/-- Claim C2: a 422 status with an envelope of status "error" is unwrapped
into a typed error whose kind is the envelope's errorType and whose message
is the envelope's error field. -/
theorem apiClientDo_apiError_unwrapped
    (unmarshal : Bytes → Except String ApiResponse) (body : Bytes) (r : ApiResponse)
    (h1 : unmarshal body = .ok r) (h2 : r.status = "error") :
    (apiClientDo unmarshal (some 422) body none).2.2 =
      some (.api ⟨r.errorType, r.errorMsg⟩) := by
  simp [apiClientDo, statusAPIError, h1, h2]

/-- Witness for C2: 422 with errorType "bad_data" and error "parse error"
yields the typed error (bad_data, "parse error"). -/
theorem apiClientDo_apiError_unwrapped_witness :
    (fun _ => Except.ok (⟨"error", [], "bad_data", "parse error"⟩ : ApiResponse) :
        Bytes → Except String ApiResponse) [] =
      Except.ok (⟨"error", [], "bad_data", "parse error"⟩ : ApiResponse) ∧
    (⟨"error", [], "bad_data", "parse error"⟩ : ApiResponse).status = "error" ∧
    (apiClientDo (fun _ => .ok ⟨"error", [], "bad_data", "parse error"⟩)
        (some 422) [] none).2.2 = some (.api ⟨"bad_data", "parse error"⟩) :=
  ⟨rfl, rfl, apiClientDo_apiError_unwrapped _ [] _ rfl rfl⟩

/-- Claim C3: a 200 status with a decoded envelope of status "success"
returns the envelope's data payload and no error. -/
theorem apiClientDo_success_returns_data
    (unmarshal : Bytes → Except String ApiResponse) (body : Bytes) (r : ApiResponse)
    (h1 : unmarshal body = .ok r) (h2 : r.status = "success") :
    apiClientDo unmarshal (some 200) body none = (some 200, r.data, none) := by
  simp [apiClientDo, statusAPIError, h1, h2]

/-- Witness for C3 at a success envelope with payload bytes [1, 2, 3]. -/
theorem apiClientDo_success_returns_data_witness :
    (fun _ => Except.ok (⟨"success", [1, 2, 3], "", ""⟩ : ApiResponse) :
        Bytes → Except String ApiResponse) [] =
      Except.ok (⟨"success", [1, 2, 3], "", ""⟩ : ApiResponse) ∧
    (⟨"success", [1, 2, 3], "", ""⟩ : ApiResponse).status = "success" ∧
    apiClientDo (fun _ => .ok ⟨"success", [1, 2, 3], "", ""⟩) (some 200) [] none =
      (some 200, [1, 2, 3], none) :=
  ⟨rfl, rfl, apiClientDo_success_returns_data _ [] _ rfl rfl⟩

/-! ## Claims about authentication selection -/

/-- Claim C4: when both basic-auth credentials and a bearer token are
configured, `httpClient.Do` attaches exactly the basic-auth
username/password and adds no bearer Authorization header (the header
list is left unchanged). -/
theorem doAttachAuth_basic_wins (username password bearerToken : String) (req : Request)
    (hu : username ≠ "") (hp : password ≠ "") (hb : bearerToken ≠ "") :
    (doAttachAuth username password bearerToken req).basicAuth =
      some (username, password) ∧
    (doAttachAuth username password bearerToken req).headers = req.headers := by
  simp [doAttachAuth, hu, Request.setBasicAuth]

/-- Witness for C4 with username "user", password "pass", bearer token
"tok" on a fresh request. -/
theorem doAttachAuth_basic_wins_witness :
    ("user" : String) ≠ "" ∧ ("pass" : String) ≠ "" ∧ ("tok" : String) ≠ "" ∧
    ((doAttachAuth "user" "pass" "tok" ⟨none, []⟩).basicAuth = some ("user", "pass") ∧
      (doAttachAuth "user" "pass" "tok" ⟨none, []⟩).headers =
        (⟨none, []⟩ : Request).headers) :=
  ⟨by decide, by decide, by decide,
    doAttachAuth_basic_wins "user" "pass" "tok" ⟨none, []⟩
      (by decide) (by decide) (by decide)⟩

/-- Claim C10: `Do` selects basic auth whenever the username is non-empty
(whatever the password), while `Proxy` selects basic auth only when both
username and password are non-empty; with a non-empty username, an empty
password, and a non-empty bearer token, `Do` authenticates with basic auth
while `Proxy` sends the bearer Authorization header. -/
theorem auth_condition_difference (username password bearerToken : String)
    (timeout : Nat) (params data : List (String × String)) (req : Request)
    (hu : username ≠ "") (hb : bearerToken ≠ "") :
    ((doAttachAuth username password bearerToken req).basicAuth =
        some (username, password)) ∧
    ((doAttachAuth username password bearerToken req).headers = req.headers) ∧
    (password ≠ "" →
      (proxyRequestOptions username password bearerToken timeout params data).auth =
        [username, password]) ∧
    (password = "" →
      (proxyRequestOptions username password bearerToken timeout params data).auth = [] ∧
      (proxyRequestOptions username password bearerToken timeout params data).headers =
        [("Authorization", "Bearer " ++ bearerToken)]) := by
  refine ⟨?_, ?_, ?_, ?_⟩
  · simp [doAttachAuth, hu, Request.setBasicAuth]
  · simp [doAttachAuth, hu, Request.setBasicAuth]
  · intro hp
    simp [proxyRequestOptions, hu, hp]
  · intro hp
    subst hp
    simp [proxyRequestOptions, hu, hb]

/-- Witness for C10 with username "admin", empty password, bearer token
"tok": `Do` picks basic auth, `Proxy` picks the bearer header. -/
theorem auth_condition_difference_witness :
    ("admin" : String) ≠ "" ∧ ("tok" : String) ≠ "" ∧
    (((doAttachAuth "admin" "" "tok" ⟨none, []⟩).basicAuth = some ("admin", "")) ∧
      ((doAttachAuth "admin" "" "tok" ⟨none, []⟩).headers =
        (⟨none, []⟩ : Request).headers) ∧
      (("" : String) ≠ "" →
        (proxyRequestOptions "admin" "" "tok" 30 [] []).auth = ["admin", ""]) ∧
      (("" : String) = "" →
        (proxyRequestOptions "admin" "" "tok" 30 [] []).auth = [] ∧
        (proxyRequestOptions "admin" "" "tok" 30 [] []).headers =
          [("Authorization", "Bearer " ++ "tok")])) :=
  ⟨by decide, by decide,
    auth_condition_difference "admin" "" "tok" 30 [] [] ⟨none, []⟩
      (by decide) (by decide)⟩

/-! ## Claim about query-result decoding -/

/-- Claim C6: `queryResult.UnmarshalJSON` decodes the discriminator first
(an outer decode error is returned as-is) and dispatches scalar payloads
to the scalar decoder, vector to the vector decoder, matrix to the matrix
decoder; the remaining discriminator values produce the
"unexpected value type" decode error rather than a default result. -/
theorem queryResultUnmarshal_dispatch {S V M : Type}
    (decScalar : Bytes → Except DecodeError S)
    (decVector : Bytes → Except DecodeError V)
    (decMatrix : Bytes → Except DecodeError M) (raw : Bytes) (e : DecodeError) :
    queryResultUnmarshal (.ok (.valScalar, raw)) decScalar decVector decMatrix =
      (decScalar raw).map .scalar ∧
    queryResultUnmarshal (.ok (.valVector, raw)) decScalar decVector decMatrix =
      (decVector raw).map .vector ∧
    queryResultUnmarshal (.ok (.valMatrix, raw)) decScalar decVector decMatrix =
      (decMatrix raw).map .matrix ∧
    queryResultUnmarshal (.ok (.valNone, raw)) decScalar decVector decMatrix =
      .error (.unexpectedValueType .valNone) ∧
    queryResultUnmarshal (.ok (.valString, raw)) decScalar decVector decMatrix =
      .error (.unexpectedValueType .valString) ∧
    queryResultUnmarshal (.error e) decScalar decVector decMatrix = .error e :=
  ⟨rfl, rfl, rfl, rfl, rfl, rfl⟩

/-! ## Claims about the body-drain/cancellation behaviour -/

/-- Counterexample to claim C7: on the cancellation path the response body
is closed twice (the explicit `resp.Body.Close()` plus the deferred one),
so "never closed twice" fails even though a response was obtained. -/
theorem httpClientDo_double_close_on_cancel :
    (httpClientDoModel (.ok 200) .cancelFirst [] none none true .ctxCanceled).resp =
      some 200 ∧
    (httpClientDoModel (.ok 200) .cancelFirst [] none none true .ctxCanceled).bodyCloses =
      2 ∧
    (httpClientDoModel (.ok 200) .cancelFirst [] none none true
        .ctxCanceled).bodyCloses ≠ 1 := by
  refine ⟨rfl, rfl, by decide⟩

/-- Claim C7 as amended: whenever a response is obtained the body is closed
at least once before `Do` returns — exactly once when the drain finishes
first, and twice (explicit close plus deferred close) when cancellation
fires first; with no response (transport error) it is never closed. -/
theorem httpClientDo_close_counts (code : Nat) (drainBody : Bytes)
    (drainErr closeErr : Option GoErr) (w : Bool) (ctxErr : GoErr) (e : GoErr) :
    (httpClientDoModel (.ok code) .drainFirst drainBody drainErr closeErr w
        ctxErr).bodyCloses = 1 ∧
    (httpClientDoModel (.ok code) .cancelFirst drainBody drainErr closeErr w
        ctxErr).bodyCloses = 2 ∧
    (httpClientDoModel (.error e) .drainFirst drainBody drainErr closeErr w
        ctxErr).bodyCloses = 0 :=
  ⟨rfl, rfl, rfl⟩

/-- Counterexample to claim C8: a non-cancellation error from the drain can
be lost.  If the drain's write to the shared `err` variable lands before
the main flow's `err = resp.Body.Close()` write (both are unsynchronized),
the nil Close result overwrites the drain error and the call returns the
context's cancellation error instead. -/
theorem httpClientDo_drain_error_lost :
    (GoErr.other "read: connection reset").isCancellation = false ∧
    (httpClientDoModel (.ok 200) .cancelFirst []
        (some (.other "read: connection reset")) none false .ctxCanceled).err =
      some .ctxCanceled := by
  refine ⟨rfl, rfl⟩

/-- Claim C8 as amended: on the cancellation path the call closes the body,
waits for the drain (the returned bytes are the drain's bytes), and returns
the error that survives the two unsynchronized writes to `err` — the
drain's error if its write lands last, otherwise the explicit close's
error — when that is non-nil, and the context's cancellation error
otherwise.  A non-cancellation drain error therefore takes precedence
exactly when the drain's write survives. -/
theorem httpClientDo_cancel_error_priority (code : Nat) (drainBody : Bytes)
    (drainErr closeErr : Option GoErr) (drainWroteLast : Bool) (ctxErr : GoErr) :
    (httpClientDoModel (.ok code) .cancelFirst drainBody drainErr closeErr
        drainWroteLast ctxErr).bodyCloses = 2 ∧
    (httpClientDoModel (.ok code) .cancelFirst drainBody drainErr closeErr
        drainWroteLast ctxErr).body = drainBody ∧
    (httpClientDoModel (.ok code) .cancelFirst drainBody drainErr closeErr
        drainWroteLast ctxErr).err =
      some ((if drainWroteLast then drainErr else closeErr).getD ctxErr) := by
  refine ⟨rfl, rfl, ?_⟩
  cases drainWroteLast <;> cases hd : drainErr <;> cases hc : closeErr <;>
    simp [httpClientDoModel]

/-! ## Claim about the Alertmanager status check -/

/-- Counterexample to claim C9: a 201 response — a 2xx status — is not
passed through; the Alertmanager wrapper turns it into a clientError
carrying the code, because the code compares against 200 exactly. -/
theorem amApiClientDo_201_error :
    201 / 100 = 2 ∧
    (amApiClientDo (some 201) [] none).2.2 = some (.clientError 201 "") := by
  refine ⟨rfl, rfl⟩

/-- Claim C9 as amended: after a successful round trip the Alertmanager
wrapper passes a response through without error exactly when its status
code is 200; any other status code (including other 2xx codes) becomes a
clientError carrying that status code and an empty message. -/
theorem amApiClientDo_status_check (code : Nat) (body : Bytes) :
    amApiClientDo (some code) body none =
      if code = 200 then (some code, body, none)
      else (some code, body, some (.clientError code "")) := by
  by_cases h : code = 200 <;> simp [amApiClientDo, h]

/-! ## Helper lemmas for the placeholder-substitution analysis -/

theorem replFuel_ext (old new : List Char) :
    ∀ (f₁ : Nat) (s : List Char) (f₂ : Nat), s.length ≤ f₁ → s.length ≤ f₂ →
      replFuel old new f₁ s = replFuel old new f₂ s := by
  intro f₁
  induction f₁ with
  | zero =>
    intro s f₂ h₁ _
    have hs : s = [] := List.length_eq_zero.mp (Nat.le_zero.mp h₁)
    subst hs
    cases f₂ <;> rfl
  | succ f ih =>
    intro s f₂ h₁ h₂
    cases s with
    | nil => cases f₂ <;> rfl
    | cons c s' =>
      cases f₂ with
      | zero => simp at h₂
      | succ f₂' =>
        simp only [List.length_cons] at h₁ h₂
        simp only [replFuel]
        by_cases hc : old ≠ [] ∧ old <+: (c :: s')
        · rw [if_pos hc, if_pos hc]
          congr 1
          apply ih
          · simp only [List.length_drop]
            omega
          · simp only [List.length_drop]
            omega
        · rw [if_neg hc, if_neg hc]
          congr 1
          apply ih
          · omega
          · omega

theorem strReplace_cons_neg (old new : List Char) (c : Char) (s : List Char)
    (h : ¬ old <+: (c :: s)) :
    strReplace old new (c :: s) = c :: strReplace old new s := by
  show replFuel old new (c :: s).length (c :: s) = _
  simp only [List.length_cons, replFuel]
  rw [if_neg (fun hc => h hc.2)]
  rfl

theorem strReplace_cons_pos (old new : List Char) (c : Char) (s : List Char)
    (hne : old ≠ []) (h : old <+: (c :: s)) :
    strReplace old new (c :: s) = new ++ strReplace old new (s.drop (old.length - 1)) := by
  show replFuel old new (c :: s).length (c :: s) = _
  simp only [List.length_cons, replFuel]
  rw [if_pos ⟨hne, h⟩]
  congr 1
  apply replFuel_ext
  · simp only [List.length_drop]
    omega
  · exact le_rfl

theorem pre_of_pre_append {l₁ l₂ l₃ : List Char} (h : l₁ <+: l₂ ++ l₃) :
    l₁ <+: l₂ ∨ l₂ <+: l₁ := by
  by_cases hl : l₁.length ≤ l₂.length
  · exact Or.inl (List.prefix_of_prefix_length_le h (List.prefix_append l₂ l₃) hl)
  · exact Or.inr
      (List.prefix_of_prefix_length_le (List.prefix_append l₂ l₃) h (by omega))

theorem strReplace_chunk (a v : List Char) :
    ∀ (m : List Char), ':' ∉ m → ∀ (l : List Char),
      strReplace (':' :: a) v (m ++ l) = m ++ strReplace (':' :: a) v l := by
  intro m
  induction m with
  | nil => intro _ l; rfl
  | cons c m' ih =>
    intro hm l
    have hc : c ≠ ':' := by
      rintro rfl
      exact hm (List.mem_cons_self _ _)
    have hnp : ¬ (':' :: a) <+: (c :: (m' ++ l)) := by
      intro hp
      rw [List.cons_prefix_cons] at hp
      exact hc hp.1.symm
    rw [List.cons_append, strReplace_cons_neg _ _ _ _ hnp,
      ih (fun h => hm (List.mem_cons_of_mem _ h)) l]
    rfl

theorem strReplace_token (a v l : List Char) :
    strReplace (':' :: a) v ((':' :: a) ++ l) = v ++ strReplace (':' :: a) v l := by
  have hpre : (':' :: a) <+: (':' :: (a ++ l)) := by
    rw [← List.cons_append]
    exact List.prefix_append _ _
  rw [List.cons_append, strReplace_cons_pos _ _ _ _ (by simp) hpre]
  have hdrop : (a ++ l).drop ((':' :: a).length - 1) = l := by
    simp [List.drop_left]
  rw [hdrop]

theorem strReplace_token_other (a v n : List Char)
    (h1 : ¬ a <+: n) (h2 : ¬ n <+: a) (hn : ':' ∉ n) (l : List Char) :
    strReplace (':' :: a) v ((':' :: n) ++ l) = (':' :: n) ++ strReplace (':' :: a) v l := by
  have hnp : ¬ (':' :: a) <+: (':' :: (n ++ l)) := by
    intro hp
    rw [List.cons_prefix_cons] at hp
    rcases pre_of_pre_append hp.2 with h | h
    · exact h1 h
    · exact h2 h
  rw [List.cons_append, strReplace_cons_neg _ _ _ _ hnp, strReplace_chunk a v n hn l]
  rfl

theorem renderSegs_append (xs ys : List Seg) :
    renderSegs (xs ++ ys) = renderSegs xs ++ renderSegs ys := by
  induction xs with
  | nil => rfl
  | cons s xs ih => simp [renderSegs, ih, List.append_assoc]

theorem renderSegs_map_lit (v : List Char) :
    renderSegs (v.map Seg.lit) = v := by
  induction v with
  | nil => rfl
  | cons c v ih => simp [renderSegs, Seg.render, ih]

theorem strReplace_renderSegs (names : List (List Char)) (hN : NamesOK names)
    (a : List Char) (ha : a ∈ names) (v : List Char) :
    ∀ (segs : List Seg), (∀ s ∈ segs, Seg.ok names s) →
      strReplace (':' :: a) v (renderSegs segs) = renderSegs (segSubst a v segs) := by
  intro segs
  induction segs with
  | nil => intro _; rfl
  | cons s rest ih =>
    intro hS
    have hs := hS s (List.mem_cons_self _ _)
    have hrest : ∀ t ∈ rest, Seg.ok names t := fun t ht => hS t (List.mem_cons_of_mem _ ht)
    cases s with
    | lit c =>
      have hc : c ≠ ':' := hs
      have hnp : ¬ (':' :: a) <+: (c :: renderSegs rest) := by
        intro hp
        rw [List.cons_prefix_cons] at hp
        exact hc hp.1.symm
      have hr : renderSegs (Seg.lit c :: rest) = c :: renderSegs rest := rfl
      rw [hr, strReplace_cons_neg _ _ _ _ hnp, ih hrest]
      rfl
    | ph n =>
      have hn : n ∈ names := hs
      by_cases hna : n = a
      · subst hna
        have hr : renderSegs (Seg.ph n :: rest) = (':' :: n) ++ renderSegs rest := rfl
        rw [hr, strReplace_token, ih hrest]
        simp [segSubst, renderSegs_append, renderSegs_map_lit]
      · have hov1 : ¬ a <+: n := hN.nooverlap a ha n hn (fun h => hna h.symm)
        have hov2 : ¬ n <+: a := hN.nooverlap n hn a ha hna
        have hcol : ':' ∉ n := hN.nocolon n hn
        have hr : renderSegs (Seg.ph n :: rest) = (':' :: n) ++ renderSegs rest := rfl
        rw [hr, strReplace_token_other a v n hov1 hov2 hcol, ih hrest]
        simp [segSubst, hna, renderSegs, Seg.render]

theorem segSubst_ok (names : List (List Char)) (a v : List Char) (hv : ':' ∉ v) :
    ∀ (segs : List Seg), (∀ s ∈ segs, Seg.ok names s) →
      ∀ s ∈ segSubst a v segs, Seg.ok names s := by
  intro segs
  induction segs with
  | nil => intro _ s hs; simp [segSubst] at hs
  | cons t rest ih =>
    intro hS s hs
    have ht := hS t (List.mem_cons_self _ _)
    have hrest := fun u hu => hS u (List.mem_cons_of_mem _ hu)
    cases t with
    | lit c =>
      rcases List.mem_cons.mp hs with rfl | hs'
      · exact ht
      · exact ih hrest s hs'
    | ph n =>
      simp only [segSubst] at hs
      rcases List.mem_append.mp hs with hs' | hs'
      · by_cases hna : n = a
        · rw [if_pos hna] at hs'
          rcases List.mem_map.mp hs' with ⟨c, hc, rfl⟩
          exact fun h => hv (h ▸ hc)
        · rw [if_neg hna] at hs'
          rcases List.mem_singleton.mp hs' with rfl
          exact ht
      · exact ih hrest s hs'

theorem substPlaceholders_renderSegs (names : List (List Char)) (hN : NamesOK names) :
    ∀ (args : List (List Char × List Char)) (segs : List Seg),
      (∀ av ∈ args, av.1 ∈ names ∧ ':' ∉ av.2) →
      (∀ s ∈ segs, Seg.ok names s) →
      substPlaceholders (renderSegs segs) args = renderSegs (segSubstAll args segs) := by
  intro args
  induction args with
  | nil => intro segs _ _; rfl
  | cons av args ih =>
    intro segs hargs hS
    have hav := hargs av (List.mem_cons_self _ _)
    have hargs' := fun b hb => hargs b (List.mem_cons_of_mem _ hb)
    show substPlaceholders (strReplace (':' :: av.1) av.2 (renderSegs segs)) args =
      renderSegs (segSubstAll args (segSubst av.1 av.2 segs))
    rw [strReplace_renderSegs names hN av.1 hav.1 av.2 segs hS]
    exact ih (segSubst av.1 av.2 segs) hargs' (segSubst_ok names av.1 av.2 hav.2 segs hS)

theorem segApply_append (f : List Char → Option (List Char)) (xs ys : List Seg) :
    segApply f (xs ++ ys) = segApply f xs ++ segApply f ys := by
  induction xs with
  | nil => rfl
  | cons s xs ih => cases s <;> simp [segApply, ih, List.append_assoc]

theorem segApply_none (segs : List Seg) : segApply (fun _ => none) segs = segs := by
  induction segs with
  | nil => rfl
  | cons s rest ih => cases s <;> simp [segApply, ih]

theorem segApply_map_lit (f : List Char → Option (List Char)) (v : List Char) :
    segApply f (v.map Seg.lit) = v.map Seg.lit := by
  induction v with
  | nil => rfl
  | cons c v ih => simp [segApply, ih]

theorem segApply_segSubst (f : List Char → Option (List Char)) (a v : List Char) :
    ∀ segs : List Seg,
      segApply f (segSubst a v segs) =
        segApply (fun n => if n = a then some v else f n) segs := by
  intro segs
  induction segs with
  | nil => rfl
  | cons s rest ih =>
    cases s with
    | lit c => simp [segSubst, segApply, ih]
    | ph n =>
      by_cases hna : n = a
      · subst hna
        simp [segSubst, segApply, segApply_append, segApply_map_lit, ih]
      · simp [segSubst, segApply, hna, ih]

theorem segSubstAll_eq_segApply :
    ∀ (args : List (List Char × List Char)) (segs : List Seg),
      segSubstAll args segs = segApply (fun n => lookupVal n args) segs := by
  intro args
  induction args with
  | nil => intro segs; exact (segApply_none segs).symm
  | cons av args ih =>
    intro segs
    show segSubstAll args (segSubst av.1 av.2 segs) = _
    rw [ih, segApply_segSubst]
    rfl

theorem lookupVal_perm (n : List Char) :
    ∀ {args₁ args₂ : List (List Char × List Char)}, args₁.Perm args₂ →
      (args₁.map Prod.fst).Nodup → lookupVal n args₁ = lookupVal n args₂ := by
  intro args₁ args₂ h
  induction h with
  | nil => intro _; rfl
  | cons x h ih =>
    intro hnd
    simp only [List.map_cons, List.nodup_cons] at hnd
    simp only [lookupVal]
    by_cases hx : n = x.1
    · simp [hx]
    · simp only [if_neg hx]
      exact ih hnd.2
  | swap x y l =>
    intro hnd
    simp only [List.map_cons, List.nodup_cons, List.mem_cons] at hnd
    have hxy : y.1 ≠ x.1 := fun h => hnd.1 (Or.inl h)
    simp only [lookupVal]
    by_cases h1 : n = y.1 <;> by_cases h2 : n = x.1
    · exact absurd (h1.symm.trans h2) hxy
    · simp [h1, h2, hxy]
    · simp [h1, h2, Ne.symm hxy]
    · simp [h1, h2]
  | trans h₁ h₂ ih₁ ih₂ =>
    intro hnd
    rw [ih₁ hnd, ih₂ ((h₁.map Prod.fst).nodup hnd)]

theorem lookupVal_covers (n : List Char) :
    ∀ args : List (List Char × List Char), n ∈ args.map Prod.fst →
      ∃ v, lookupVal n args = some v ∧ (n, v) ∈ args := by
  intro args
  induction args with
  | nil => intro h; simp at h
  | cons av args ih =>
    intro h
    by_cases hna : n = av.1
    · exact ⟨av.2, by simp [lookupVal, hna], by simp [hna]⟩
    · have h' : n ∈ args.map Prod.fst := by
        rw [List.map_cons] at h
        rcases List.mem_cons.mp h with h1 | h1
        · exact absurd h1 hna
        · exact h1
      rcases ih h' with ⟨v, hv, hmem⟩
      exact ⟨v, by simp [lookupVal, hna, hv], List.mem_cons_of_mem _ hmem⟩

theorem segApply_subd (f : List Char → Option (List Char)) :
    ∀ segs : List Seg,
      (∀ c, Seg.lit c ∈ segs → c ≠ ':') →
      (∀ n, Seg.ph n ∈ segs → ∃ v, f n = some v ∧ ':' ∉ v) →
      ∀ s ∈ segApply f segs, Seg.subd s := by
  intro segs
  induction segs with
  | nil => intro _ _ s hs; simp [segApply] at hs
  | cons t rest ih =>
    intro hlit hph s hs
    have hlit' := fun c hc => hlit c (List.mem_cons_of_mem _ hc)
    have hph' := fun n hn => hph n (List.mem_cons_of_mem _ hn)
    cases t with
    | lit c =>
      rcases List.mem_cons.mp hs with rfl | hs'
      · exact hlit c (List.mem_cons_self _ _)
      · exact ih hlit' hph' s hs'
    | ph n =>
      rcases hph n (List.mem_cons_self _ _) with ⟨v, hv, hcol⟩
      simp only [segApply, hv] at hs
      rcases List.mem_append.mp hs with hs' | hs'
      · rcases List.mem_map.mp hs' with ⟨c, hc, rfl⟩
        exact fun h => hcol (h ▸ hc)
      · exact ih hlit' hph' s hs'

theorem renderSegs_no_colon :
    ∀ segs : List Seg, (∀ s ∈ segs, Seg.subd s) → ':' ∉ renderSegs segs := by
  intro segs
  induction segs with
  | nil => intro _ h; simp [renderSegs] at h
  | cons t rest ih =>
    intro hS h
    simp only [renderSegs] at h
    rcases List.mem_append.mp h with h' | h'
    · cases t with
      | lit c =>
        have hc : c ≠ ':' := hS _ (List.mem_cons_self _ _)
        exact hc (List.mem_singleton.mp h').symm
      | ph n => exact (hS _ (List.mem_cons_self _ _)).elim
    · exact ih (fun s hs => hS s (List.mem_cons_of_mem _ hs)) h'

/-! ## Claims about URL placeholder substitution -/

/-- Counterexample to claim C5: with the unique placeholders `:id` and
`:idx` (one name a prefix of the other) the substituted path depends on
the order in which the substitutions are applied, and a supplied value
containing a placeholder token leaves that token verbatim in the result. -/
theorem substPlaceholders_order_dependent :
    substPlaceholders "/a/:id/:idx".data
        [("id".data, "1".data), ("idx".data, "2".data)] ≠
      substPlaceholders "/a/:id/:idx".data
        [("idx".data, "2".data), ("id".data, "1".data)] ∧
    (':' :: "b".data) <:+:
      substPlaceholders "/:a/:b".data
        [("b".data, "x".data), ("a".data, ":b".data)] := by
  constructor <;> decide

/-- Claim C5 as amended: for templates whose colons all start placeholder
occurrences, with non-empty colon-free placeholder names no two of which
are in a prefix relation, and argument lists that supply a colon-free
value for every placeholder under distinct names, substitution removes
every placeholder token from the path and the result is independent of
the order in which the substitutions are applied. -/
theorem substPlaceholders_wellformed_correct
    (names : List (List Char)) (hN : NamesOK names)
    (segs : List Seg) (hS : ∀ s ∈ segs, Seg.ok names s)
    (args args₂ : List (List Char × List Char))
    (hargs : ∀ av ∈ args, av.1 ∈ names ∧ ':' ∉ av.2)
    (hcov : ∀ s ∈ segs, Seg.coveredBy args s)
    (hnd : (args.map Prod.fst).Nodup)
    (hperm : args₂.Perm args) :
    (∀ a ∈ names, ¬ (':' :: a) <:+: substPlaceholders (renderSegs segs) args) ∧
    substPlaceholders (renderSegs segs) args₂ =
      substPlaceholders (renderSegs segs) args := by
  have hargs₂ : ∀ av ∈ args₂, av.1 ∈ names ∧ ':' ∉ av.2 :=
    fun av hav => hargs av (hperm.subset hav)
  have hB : substPlaceholders (renderSegs segs) args = renderSegs (segSubstAll args segs) :=
    substPlaceholders_renderSegs names hN args segs hargs hS
  have hB₂ : substPlaceholders (renderSegs segs) args₂ =
      renderSegs (segSubstAll args₂ segs) :=
    substPlaceholders_renderSegs names hN args₂ segs hargs₂ hS
  have hsubd : ∀ s ∈ segApply (fun n => lookupVal n args) segs, Seg.subd s := by
    apply segApply_subd
    · intro c hc
      exact hS _ hc
    · intro n hn
      have hmemf : n ∈ args.map Prod.fst := hcov _ hn
      rcases lookupVal_covers n args hmemf with ⟨v, hv, hmem⟩
      exact ⟨v, hv, (hargs _ hmem).2⟩
  constructor
  · intro a _ hinf
    rw [hB, segSubstAll_eq_segApply] at hinf
    rcases hinf with ⟨u, w, heq⟩
    apply renderSegs_no_colon _ hsubd
    rw [← heq]
    simp
  · rw [hB, hB₂, segSubstAll_eq_segApply, segSubstAll_eq_segApply]
    have hfun : (fun n => lookupVal n args₂) = (fun n => lookupVal n args) := by
      funext n
      exact lookupVal_perm n hperm ((hperm.map Prod.fst).symm.nodup hnd)
    rw [hfun]

/-- Witness for the amended C5 on the template `:i/:j` with values 1 and 2
supplied in the two possible orders. -/
theorem substPlaceholders_wellformed_correct_witness :
    NamesOK [['i'], ['j']] ∧
    (∀ s ∈ [Seg.ph ['i'], Seg.lit '/', Seg.ph ['j']], Seg.ok [['i'], ['j']] s) ∧
    (∀ av ∈ [([('i' : Char)], [('1' : Char)]), ([('j' : Char)], [('2' : Char)])],
      av.1 ∈ [['i'], ['j']] ∧ ':' ∉ av.2) ∧
    (∀ s ∈ [Seg.ph ['i'], Seg.lit '/', Seg.ph ['j']],
      Seg.coveredBy [([('i' : Char)], [('1' : Char)]), ([('j' : Char)], [('2' : Char)])] s) ∧
    (([([('i' : Char)], [('1' : Char)]),
        ([('j' : Char)], [('2' : Char)])].map Prod.fst).Nodup) ∧
    ([([('j' : Char)], [('2' : Char)]), ([('i' : Char)], [('1' : Char)])].Perm
      [([('i' : Char)], [('1' : Char)]), ([('j' : Char)], [('2' : Char)])]) ∧
    ((∀ a ∈ [['i'], ['j']],
        ¬ (':' :: a) <:+:
          substPlaceholders (renderSegs [Seg.ph ['i'], Seg.lit '/', Seg.ph ['j']])
            [([('i' : Char)], [('1' : Char)]), ([('j' : Char)], [('2' : Char)])]) ∧
      substPlaceholders (renderSegs [Seg.ph ['i'], Seg.lit '/', Seg.ph ['j']])
          [([('j' : Char)], [('2' : Char)]), ([('i' : Char)], [('1' : Char)])] =
        substPlaceholders (renderSegs [Seg.ph ['i'], Seg.lit '/', Seg.ph ['j']])
          [([('i' : Char)], [('1' : Char)]), ([('j' : Char)], [('2' : Char)])]) :=
  ⟨⟨by decide, by decide, by decide⟩, by decide, by decide, by decide, by decide, by decide,
    substPlaceholders_wellformed_correct [['i'], ['j']] ⟨by decide, by decide, by decide⟩
      [Seg.ph ['i'], Seg.lit '/', Seg.ph ['j']] (by decide)
      [([('i' : Char)], [('1' : Char)]), ([('j' : Char)], [('2' : Char)])]
      [([('j' : Char)], [('2' : Char)]), ([('i' : Char)], [('1' : Char)])]
      (by decide) (by decide) (by decide) (by decide)⟩

end Gclients
